import Mathlib

/-!
Verification of the mcl-rs launcher core against its specification.

The Rust sources are shallowly embedded as executable Lean definitions:
  * the rule engine of `src/src/data/mojang.rs` (`Rules::is_allowed`,
    `Rule::calculate_action`, `RuleAction`);
  * the task handle of `src/api/src/tasks.rs` and of `src/src/tasks/mod.rs`;
  * the sync task of `src/api/src/files/io.rs` over an abstract world
    (local-file slot + HTTP response);
  * the path helpers of `src/src/util.rs` (`build_library_path`,
    `substitute_params`) together with the Unix semantics of
    `std::path::PathBuf::push`;
  * the directory placer of `src/src/dirs.rs`.

HashMaps are embedded as association lists; machine integers as `Nat`
(no arithmetic here overflows); fallible Rust code as `Except`/`Option`.
-/

namespace Mcl

/-! ## Rule engine — `src/src/data/mojang.rs` -/

/-- `OsSelector` bit constants, exactly the `bitflags!` block. -/
def osLinux32      : Nat := 0b0000000001
def osLinux64      : Nat := 0b0000000010
def osWindows32    : Nat := 0b0000000100
def osWindows64    : Nat := 0b0000001000
def osWindows10_32 : Nat := 0b0000010000
def osWindows10_64 : Nat := 0b0000100000
def osOSX32        : Nat := 0b0001000000
def osOSX64        : Nat := 0b0010000000
def osMacOS32     : Nat := 0b0100000000
def osMacOS64     : Nat := 0b1000000000

/-- `OsSelector::all()`. -/
def osAll : Nat := 0b1111111111

/-- `OsSelector::intersects`. -/
def osIntersects (a b : Nat) : Bool := a &&& b ≠ 0

/-- `RuleAction`. -/
inductive RuleAction where
  | allow
  | disallow
  deriving DecidableEq, Repr

/-- `RuleAction::value`. -/
def RuleAction.value : RuleAction → Bool
  | .allow => true
  | .disallow => false

/-- `RuleAction::invert`. -/
def RuleAction.invert : RuleAction → RuleAction
  | .allow => .disallow
  | .disallow => .allow

/-- `OsDescription` (all three fields `Option<&str>`). -/
structure OsDescription where
  name : Option String
  version : Option String
  arch : Option String
  deriving DecidableEq, Repr

/-- `Rule` with its `features` HashMap embedded as an association list. -/
structure Rule where
  action : RuleAction
  os : OsDescription
  features : List (String × Bool)
  deriving DecidableEq, Repr

/-- A feature map (`HashMap<Cow<str>, bool>`): key absent means `false`. -/
def featLookup (params : List (String × Bool)) (k : String) : Bool :=
  match params.lookup k with
  | some b => b
  | none => false

/-- `version.starts_with("^10")` guard on an optional version string. -/
def versionStarts10 : Option String → Bool
  | some v => v.startsWith "^10"
  | none => false

/-- The `match (self.os.name, self.os.arch, self.os.version)` block of
`Rule::calculate_action`, written as the same top-to-bottom decision. -/
def matchedBits (os : OsDescription) : Nat :=
  if os.name = some "linux" then
    if os.arch = some "x86" then osLinux32
    else osLinux64 ||| osLinux32
  else if os.name = some "windows" then
    if os.arch = some "x86" ∧ versionStarts10 os.version then osWindows10_32
    else if versionStarts10 os.version then osWindows10_64 ||| osWindows10_32
    else if os.arch = some "x86" then osWindows32 ||| osWindows10_32
    else osWindows64 ||| osWindows32 ||| osWindows10_64 ||| osWindows10_32
  else if os.name = some "osx" then
    if os.arch = some "x86" ∧ versionStarts10 os.version then osOSX32
    else if versionStarts10 os.version then osOSX64 ||| osOSX32
    else if os.arch = some "x86" then osMacOS32 ||| osOSX32
    else osMacOS64 ||| osMacOS32 ||| osOSX64 ||| osOSX32
  else osAll

/-- `Rule::calculate_action`.  The result of the HashMap iteration over
`features` only depends on whether some declared feature disagrees, so it
is embedded with `List.any`. -/
def calculateAction (rule : Rule) (params : List (String × Bool))
    (osSelector : Nat) : RuleAction :=
  let allowed := matchedBits rule.os
  if ¬ osIntersects osSelector allowed then rule.action.invert
  else if rule.features.any (fun kv => featLookup params kv.1 ≠ kv.2) then
    rule.action.invert
  else rule.action

/-- `Rule::is_allowed`. -/
def ruleIsAllowed (rule : Rule) (params : List (String × Bool))
    (osSelector : Nat) : Bool :=
  (calculateAction rule params osSelector).value

/-- `Rules::is_allowed`. -/
def rulesIsAllowed (rules : List Rule) (params : List (String × Bool))
    (osSelector : Nat) : Bool :=
  ! rules.any (fun rule => ! ruleIsAllowed rule params osSelector)

/-! ## Library path synthesis — `src/src/util.rs`

Strings are embedded as `List Char`.  `PathBuf::push` is embedded with
its Unix semantics: an absolute component replaces the buffer, otherwise
a `/` separator is inserted unless the buffer is empty or already ends
with `/`; `to_string_lossy` on valid UTF-8 is the identity. -/

/-- Rust `str::split(sep)`: `""` yields one empty piece, separators at
the ends yield empty pieces. -/
def splitOnChar (sep : Char) : List Char → List (List Char)
  | [] => [[]]
  | c :: rest =>
    if c = sep then [] :: splitOnChar sep rest
    else
      match splitOnChar sep rest with
      | h :: t => (c :: h) :: t
      | [] => [[c]]

/-- Rust `str::splitn(3, sep)`: the first two pieces, then the remainder
verbatim. -/
def splitn3Char (sep : Char) (s : List Char) : List (List Char) :=
  match splitOnChar sep s with
  | a :: b :: c :: rest => [a, b, List.intercalate [sep] (c :: rest)]
  | l => l

/-- `PathBuf::push` on Unix. -/
def pushL (p s : List Char) : List Char :=
  if s.head? = some '/' then s
  else if p ≠ [] ∧ p.getLast? ≠ some '/' then p ++ '/' :: s
  else p ++ s

/-- `build_library_path` (`hash` is the `Display` rendering of the hash
argument). -/
def buildLibraryPath (name hash : List Char)
    (nativeStr : Option (List Char)) : List Char :=
  match splitn3Char ':' name with
  | [lib, nm, version] =>
    let p1 := (splitOnChar '.' lib).foldl pushL []
    let p2 := pushL p1 nm
    let p3 := pushL p2 version
    let fname :=
      match nativeStr with
      | some ns => nm ++ '-' :: version ++ '-' :: ns ++ ".jar".toList
      | none => nm ++ '-' :: version ++ ".jar".toList
    pushL p3 fname
  | _ =>
    if name = [] then hash ++ ".jar".toList
    else name ++ '-' :: hash ++ ".jar".toList

/-- The claim's character-level reading of "group with dots as
slashes". -/
def dotSlash (c : Char) : Char := if c = '.' then '/' else c

/-- The path the claim asserts for a successfully parsed
`group:artifact:version` name. -/
def claimedLibraryPath (group artifact version : List Char)
    (native : Option (List Char)) : List Char :=
  group.map dotSlash ++ '/' :: artifact ++ '/' :: version ++ '/' ::
    (artifact ++ '-' :: version ++
      (match native with | some n => '-' :: n | none => []) ++ ".jar".toList)

/-- A path component on which `PathBuf::push` degenerates to plain
joining: nonempty, not absolute, no trailing separator. -/
def goodComp (s : List Char) : Prop :=
  s ≠ [] ∧ s.head? ≠ some '/' ∧ s.getLast? ≠ some '/'

instance : DecidablePred goodComp := fun s => by
  unfold goodComp; infer_instance

/-- Each component prefixed by `/`, in sequence (the tail that
`PathBuf::push` appends after a nonempty buffer). -/
def slashPrefixed (segs : List (List Char)) : List Char :=
  segs.foldr (fun s acc => '/' :: s ++ acc) []

/-- Components joined by single slashes. -/
def slashJoin : List (List Char) → List Char
  | [] => []
  | [s] => s
  | s :: rest => s ++ '/' :: slashJoin rest

/-! ## Template substitution — `src/src/util.rs::substitute_params`

The `while` loop is embedded as a recursion over the scan position
`start`; `out`/`emit` are the `output: Option<String>` buffer and
`emit_start`.  `'$'`, `'{'`, `'}'` are ASCII, so char indices coincide
with the Rust byte indices. -/

/-- Rust `str::find("${")`: the first `i` with `l[i] = '$'` and
`l[i+1] = '{'`. -/
def findDollarBrace (l : List Char) : Option Nat :=
  (l.zip l.tail).findIdx? (fun p => p.1 == '$' && p.2 == '{')

/-- Rust `str::find('}')`. -/
def findClosingBrace (l : List Char) : Option Nat :=
  l.findIdx? (· == '}')

/-- `template[i..j]`. -/
def sliceL (l : List Char) (i j : Nat) : List Char := (l.drop i).take (j - i)

/-- After the loop: `Some(out)` gets the tail from `emit_start` pushed
and is returned owned, `None` returns the template borrowed. -/
def finishSubst (tl : List Char) (out : Option (List Char))
    (emit : Nat) : List Char :=
  match out with
  | some o => o ++ tl.drop emit
  | none => tl

/-- One placeholder dispatch of the loop body (`open` = `op`,
`close + 1` is where both `emit_start` and `start` move when something
is pushed): the new `output` buffer and the new `emit_start`. -/
def stepState (params : List (List Char × List Char)) (tl : List Char)
    (out : Option (List Char)) (emit op close : Nat) :
    Option (List Char) × Nat :=
  let key := sliceL tl (op + 2) close
  let ph := sliceL tl op (close + 1)
  match params.lookup key with
  | some v =>
    if v = ph then
      match out with
      | some o => (some (o ++ sliceL tl emit op ++ ph), close + 1)
      | none => (none, emit)
    else (some (out.getD [] ++ sliceL tl emit op ++ v), close + 1)
  | none =>
    match out with
    | some o => (some (o ++ sliceL tl emit op ++ ph), close + 1)
    | none => (none, emit)

/-- The loop of `substitute_params`.  Positions are absolute indices
into `tl`; `findDollarBrace` searches `template[start..]` and
`findClosingBrace` searches `template[open + 2..]`, and every branch of
the body continues with `start = close + 1`, as in the source. -/
def substAux (params : List (List Char × List Char)) (tl : List Char)
    (out : Option (List Char)) (emit start : Nat) : List Char :=
  match h1 : findDollarBrace (tl.drop start) with
  | none => finishSubst tl out emit
  | some i =>
    match h2 : findClosingBrace (tl.drop (start + i + 2)) with
    | none => finishSubst tl out emit
    | some j =>
      let next := stepState params tl out emit (start + i) (start + i + 2 + j)
      substAux params tl next.1 next.2 (start + i + 2 + j + 1)
termination_by tl.length - start
decreasing_by
  have b1 := (List.findIdx?_eq_some_iff_findIdx_eq.mp h1).1
  have b2 := (List.findIdx?_eq_some_iff_findIdx_eq.mp h2).1
  simp [List.length_zip, List.length_tail, List.length_drop] at b1 b2
  omega

/-- `substitute_params` (the returned string content; `Cow` borrowing is
an allocation detail). -/
def substituteParams (tl : List Char)
    (params : List (List Char × List Char)) : List Char :=
  substAux params tl none 0 0

/-- The claim's description of the scan, as a direct left-to-right
rewriter: each placeholder whose key resolves to a value different from
the placeholder itself is replaced, otherwise it is emitted verbatim;
an unterminated placeholder leaves the rest unchanged. -/
def specSubstAux (params : List (List Char × List Char)) (tl : List Char)
    (start : Nat) : List Char :=
  match h1 : findDollarBrace (tl.drop start) with
  | none => tl.drop start
  | some i =>
    match h2 : findClosingBrace (tl.drop (start + i + 2)) with
    | none => tl.drop start
    | some j =>
      let op := start + i
      let close := start + i + 2 + j
      let key := sliceL tl (op + 2) close
      let ph := sliceL tl op (close + 1)
      sliceL tl start op ++
        (match params.lookup key with
         | some v => if v = ph then ph else v
         | none => ph) ++
        specSubstAux params tl (close + 1)
termination_by tl.length - start
decreasing_by
  all_goals
    have b1 := (List.findIdx?_eq_some_iff_findIdx_eq.mp h1).1
    have b2 := (List.findIdx?_eq_some_iff_findIdx_eq.mp h2).1
    simp [List.length_zip, List.length_tail, List.length_drop] at b1 b2
    omega

/-- The claim's scanner from the start of the template. -/
def specSubstitute (tl : List Char)
    (params : List (List Char × List Char)) : List Char :=
  specSubstAux params tl 0

/-! ## Directory placer — `src/src/dirs.rs`

`Dirs::locate` pattern-matches a `Source` draft
(`Source::Archive { zipped, index }`) whose data module is not among the
sources; the types below reconstruct exactly the shape the function
uses.  A `none` result of `locate` models a panic (the explicit
`panic!("nested archives not supported")` and the
`path.parent().unwrap()`). -/

/-- Modelled from the spec: the `SourceKind` of the draft data module
matched by `Dirs::locate` — absent from the sources — reconstructed
from the `locate` match arms and section 3 of the spec. -/
inductive DSourceKind where
  | versionManifest
  | assetIndex
  | asset (legacy : Bool)
  | library
  | clientJar
  | serverJar
  | versionInfo
  | jvmInfo (platform jvmMojangName : List Char)
  | jvmFile (platform jvmMojangName : List Char)
  deriving DecidableEq, Repr

/-- Modelled from the spec: the draft `Source` that `Dirs::locate`
matches; `Source::Archive { zipped, index }` carries the referenced
source (`zipped.source`) and the archive's entry-name table
(`zipped.archive`, reduced to what `name_for_index` exposes). -/
inductive DSource where
  | remote (name : List Char) (kind : DSourceKind)
  | archive (zippedSource : DSource) (entryNames : List (List Char))
      (index : Nat)
  deriving DecidableEq, Repr

/-- `Dirs` (the five base directories). -/
structure Dirs where
  root : List Char
  assets : List Char
  libraries : List Char
  versions : List Char
  runtime : List Char
  deriving DecidableEq, Repr

/-- A path with its trailing `/`s removed. -/
def stripTrailingSlashes (p : List Char) : List Char :=
  (p.reverse.dropWhile (· = '/')).reverse

/-- The characters after the last `/` (the file-name component on
ordinary paths). -/
def lastComponent (p : List Char) : List Char :=
  (p.reverse.takeWhile (· ≠ '/')).reverse

/-- `Path::parent` on Unix: `none` for the empty path and the root,
otherwise the path minus its last component (ignoring trailing
slashes). -/
def parentL (p : List Char) : Option (List Char) :=
  let q := stripTrailingSlashes p
  if q = [] then none
  else
    let pre := stripTrailingSlashes
      (q.take (q.length - (lastComponent q).length))
    if pre = [] ∧ q.head? = some '/' then some ['/']
    else some pre

/-- `PathBuf::add_extension` (nightly) on Unix: append `.ext` after the
file name; no change when the file name is absent (empty path, root,
`..`) or the extension is empty.  (`Path::file_name`'s normalisation of
`.` components is approximated by the last component.) -/
def addExtensionL (p ext : List Char) : List Char :=
  let q := stripTrailingSlashes p
  let fn := lastComponent q
  if fn = [] ∨ fn = "..".toList ∨ ext = [] then p
  else q ++ '.' :: ext

/-- `build_path` of `src/src/dirs.rs`: push each component, append the
raw suffix to the OS string, then add the extension. -/
def buildPathL (base : List Char) (paths : List (List Char))
    (suffix : Option (List Char)) (ext : Option (List Char)) : List Char :=
  let p := paths.foldl pushL base
  let p2 :=
    match suffix with
    | some s => p ++ s
    | none => p
  match ext with
  | some e => addExtensionL p2 e
  | none => p2

/-- The `Source::Remote` arm of `Dirs::locate` (total). -/
def locateRemote (d : Dirs) (name : List Char) (kind : DSourceKind) :
    List Char :=
  match kind with
  | .versionManifest => buildPathL d.root [name] none (some "json".toList)
  | .assetIndex =>
    buildPathL d.assets ["indexes".toList, name] none (some "json".toList)
  | .asset false => buildPathL d.assets ["objects".toList, name] none none
  | .asset true => buildPathL d.assets ["legacy".toList, name] none none
  | .library => buildPathL d.libraries [name] none none
  | .clientJar => buildPathL d.versions [name, name] none (some "jar".toList)
  | .serverJar =>
    buildPathL d.versions [name, name] (some "_server".toList)
      (some "jar".toList)
  | .versionInfo =>
    buildPathL d.versions [name, name] none (some "json".toList)
  | .jvmInfo platform jvmMojangName =>
    buildPathL d.runtime [jvmMojangName, platform, jvmMojangName, name]
      (some "_info".toList) (some "json".toList)
  | .jvmFile platform jvmMojangName =>
    buildPathL d.runtime [jvmMojangName, platform, jvmMojangName, name]
      none none

/-- `zipped.archive.name_for_index(index)` with the
`unwrap_or(format!("unnamed{index}"))` fallback. -/
def archiveEntryName (entryNames : List (List Char)) (index : Nat) :
    List Char :=
  match entryNames.get? index with
  | some s => s
  | none => "unnamed".toList ++ (toString index).toList

/-- `Dirs::locate`.  `none` models a panic: the nested-archive
`panic!` and the `.parent().unwrap()` on a parentless path. -/
def locate (d : Dirs) : DSource → Option (List Char)
  | .remote name kind => some (locateRemote d name kind)
  | .archive (.remote nm kd) entryNames index =>
    (parentL (locateRemote d nm kd)).map
      (fun par => pushL par (archiveEntryName entryNames index))
  | .archive (.archive _ _ _) _ _ => none

/-- The path the claim (spec section 4.5) asserts for an archive entry:
`versions/<classifier>/natives/<entry_name>`. -/
def claimedNativesPath (d : Dirs) (classifier entry : List Char) :
    List Char :=
  pushL (pushL (pushL d.versions classifier) "natives".toList) entry

end Mcl

namespace Mcl

/-! ## Task handle — `src/api/src/tasks.rs` -/

/-- `State` of the api task manager (`repr(u8)` enum). -/
inductive AState where
  | pending
  | running
  | paused
  | cancelled
  | finished
  deriving DecidableEq, Repr

/-- `Handle::pause`: effect on the atomic state cell. -/
def apiPause : AState → AState
  | .running => .paused
  | s => s

/-- `Handle::resume`: effect on the atomic state cell. -/
def apiResume : AState → AState
  | .paused => .running
  | s => s

/-- `Handle::cancel`: effect on the atomic state cell
(`matches!(self.state(), State::Running | State::Paused)`). -/
def apiCancel : AState → AState
  | .running => .cancelled
  | .paused => .cancelled
  | s => s

/-- `Handle::result`: `Some` only in `State::Finished`; `slot` is the
content of the result cell (written at most once, before `Finished`). -/
def apiResult {R : Type} (s : AState) (slot : Option R) : Option R :=
  match s with
  | .finished => slot
  | _ => none

/-- Outcome of one poll of the inner future. -/
inductive InnerPoll (R : Type) where
  | ready (r : R)
  | pending
  deriving DecidableEq, Repr

/-- `Poll<()>` returned by `Task::poll`. -/
inductive TaskPoll where
  | ready
  | pendingPoll
  deriving DecidableEq, Repr

/-- The `State::Running`/terminal part of the `Task::poll` loop: state
after the iteration, newly stored result, and the returned `Poll`. -/
def apiPollLoop {R : Type} (s : AState) (inner : InnerPoll R) :
    AState × Option R × TaskPoll :=
  match s, inner with
  | .running, .ready r => (.finished, some r, .ready)
  | .running, .pending => (.running, none, .pendingPoll)
  | .paused, _ => (.paused, none, .pendingPoll)
  | .finished, _ => (.finished, none, .ready)
  | .cancelled, _ => (.cancelled, none, .ready)
  | .pending, _ => (.pending, none, .pendingPoll)

/-- `Task::poll`: `State::Pending` flips to `Running` and the loop
continues; every other entry state is handled by one loop iteration
(`Running` with a ready inner future passes through `Finished` and
returns `Ready` on the next iteration). -/
def apiPoll {R : Type} (s : AState) (inner : InnerPoll R) :
    AState × Option R × TaskPoll :=
  match s with
  | .pending => apiPollLoop .running inner
  | s => apiPollLoop s inner

/-! ## Task manager — `src/src/tasks/mod.rs` -/

/-- A `StdError` (`Box<dyn Error>`) as the task future returns it: either
the distinguished `Cancelled` error (`err.is::<Cancelled>()`) or any
other error value. -/
inductive TError (E : Type) where
  | cancelledErr
  | other (e : E)
  deriving DecidableEq, Repr

/-- `State<R>` of `src/src/tasks/mod.rs` (with `Failed` carrying the
error). -/
inductive SState (R E : Type) where
  | pending
  | starting
  | running
  | paused
  | finished (r : R)
  | failed (e : E)
  | cancelled
  deriving DecidableEq, Repr

/-- A task `Handle` reduced to its `RwLock<State<R>>` cell. -/
structure SHandle (R E : Type) where
  state : SState R E

/-- `Handle::state` (read of the `RwLock`). -/
def sHandleState {R E : Type} (h : SHandle R E) : SState R E := h.state

/-- The unconditional state write at the end of `Manager::run`'s spawned
future: `Ok` stores `Finished`, a `Cancelled` error stores `Cancelled`,
any other error stores `Failed(err)`. -/
def runCompletion {R E : Type} (res : Except (TError E) R) : SState R E :=
  match res with
  | .ok r => .finished r
  | .error .cancelledErr => .cancelled
  | .error (.other e) => .failed e

/-- Applying the completion write to the handle's state cell. -/
def applyCompletion {R E : Type} (_h : SHandle R E)
    (res : Except (TError E) R) : SHandle R E :=
  ⟨runCompletion res⟩

/-! ## Sync task — `src/api/src/files/io.rs`

The task is embedded as a pure function over an abstract world: the
content of the file at the task's local path plus the HTTP response the
remote would give.  JSON/zip decoding is abstracted by an oracle
predicate, since no claim depends on the decoded value. -/

/-- Modelled from the spec: `ContentType` is declared in the missing
`api/src/files/mod.rs`; its variants are reconstructed from the uses in
`api/src/files/sources.rs` and `api/src/files/io.rs` and section 3 of
the spec. -/
inductive ContentType where
  | versionManifest
  | versionInfo
  | assetIndex
  | asset
  | legacyAsset
  | clientJar
  | library
  | nativeLibrary
  deriving DecidableEq, Repr

/-- `Validation` (`#[default] Usual`). -/
inductive Validation where
  | noneAtAll
  | force
  | usual
  deriving DecidableEq, Repr

/-- The content types the task parses after fetching: the
`ContentType::AssetIndex | VersionInfo | NativeLibrary | VersionManifest`
pattern in `SyncTask::task`. -/
def isParsedType : ContentType → Bool
  | .assetIndex => true
  | .versionInfo => true
  | .nativeLibrary => true
  | .versionManifest => true
  | _ => false

/-- The `io::ErrorKind`s the sync task produces. -/
inductive IoErr where
  | notFound
  | invalidData
  | otherErr
  deriving DecidableEq, Repr

/-- `SyncTask` restricted to the fields its control flow reads (`url`,
`path`, `client` and `progress` only feed the abstract world / are
ephemeral). -/
structure SyncTask where
  size : Option Nat
  validation : Validation
  ctype : ContentType
  deriving DecidableEq, Repr

/-- An HTTP response: advertised `Content-Length` and body bytes. -/
structure HttpResponse where
  contentLength : Option Nat
  body : List Nat
  deriving DecidableEq, Repr

/-- The world a sync task runs against: the local file at the task's
path (content, or `none` when absent), whether `fs::metadata` fails
with a non-NotFound error, and the remote's response (`none` models a
transport failure of the GET). -/
structure World where
  localFile : Option (List Nat)
  metaFail : Bool
  response : Option HttpResponse
  deriving DecidableEq, Repr

/-- `SyncTask::is_valid`. -/
def isValid (t : SyncTask) (w : World) : Except IoErr Bool :=
  match t.validation with
  | .noneAtAll => .ok true
  | .force => .ok false
  | .usual =>
    if w.metaFail then .error .otherErr
    else
      match w.localFile, t.size with
      | none, _ => .ok false
      | some _, none => .ok true
      | some content, some s => .ok (content.length == s)

/-- `SyncTask::download`: transport error, then the size gate comparing
the declared size with the response `Content-Length`, then the streamed
body. -/
def download (t : SyncTask) (w : World) : Except IoErr (List Nat) :=
  match w.response with
  | none => .error .otherErr
  | some resp =>
    match t.size, resp.contentLength with
    | some sourceLen, some contentLen =>
      if sourceLen ≠ contentLen then .error .invalidData else .ok resp.body
    | _, _ => .ok resp.body

/-- `SyncTask::read_local` (`fs::read`). -/
def readLocal (w : World) : Except IoErr (List Nat) :=
  match w.localFile with
  | some content => .ok content
  | none => .error .notFound

/-- `SyncTask::write_to_file`. -/
def writeFile (w : World) (buf : List Nat) : World :=
  { w with localFile := some buf }

/-- Error kind of a failed decode: `read_zip` maps zip errors to
`ErrorKind::Other`, `deserialize_json` to `InvalidData`. -/
def decodeErr (ct : ContentType) : IoErr :=
  if ct = .nativeLibrary then .otherErr else .invalidData

/-- `SyncTask::task` (the `GenerateTask` impl): returns the task result,
the final world, and whether a network request was issued.  `decodeOk`
abstracts whether `deserialize_json`/`read_zip` succeed on the bytes. -/
def taskRun (decodeOk : ContentType → List Nat → Bool)
    (t : SyncTask) (w : World) : Except IoErr Unit × World × Bool :=
  match isValid t w with
  | .error e => (.error e, w, false)
  | .ok valid =>
    if isParsedType t.ctype then
      if valid then
        match readLocal w with
        | .error e => (.error e, w, false)
        | .ok bytes =>
          ((if decodeOk t.ctype bytes then .ok ()
            else .error (decodeErr t.ctype)), w, false)
      else
        match download t w with
        | .error e => (.error e, w, true)
        | .ok buf =>
          ((if decodeOk t.ctype buf then .ok ()
            else .error (decodeErr t.ctype)), writeFile w buf, true)
    else
      if valid then (.ok (), w, false)
      else
        match download t w with
        | .error e => (.error e, w, true)
        | .ok buf => (.ok (), writeFile w buf, true)

theorem ruleAction_value_eq_allow (a : RuleAction) :
    a.value = true ↔ a ≠ RuleAction.disallow := by
  cases a <;> simp [RuleAction.value]

/-- C1: `Rules::is_allowed` is true iff no rule evaluates to `Disallow`;
a rule evaluates to the inverse of its action when the selector misses the
matched OS bits, else to the inverse when a declared feature disagrees
with the feature map, else to its action (that is `calculateAction`);
and the empty rule list is allowed for every input. -/
theorem c1_rules_is_allowed_iff_no_disallow
    (rules : List Rule) (params : List (String × Bool)) (osSelector : Nat) :
    (rulesIsAllowed rules params osSelector = true ↔
      ∀ rule ∈ rules, calculateAction rule params osSelector ≠ .disallow) ∧
    rulesIsAllowed [] params osSelector = true := by
  constructor
  · unfold rulesIsAllowed ruleIsAllowed
    simp [List.any_eq_true, ruleAction_value_eq_allow]
  · rfl

/-- C2 counterexample: `Handle::cancel` on a `Pending` task is a no-op;
it does not drive the state to `Cancelled` as the claim states. -/
theorem c2_cancel_pending_counterexample :
    apiCancel AState.pending = AState.pending ∧
    AState.pending ≠ AState.cancelled := by
  decide

/-- C2 amended: `pause` changes the state only from `Running` (to
`Paused`), `resume` only from `Paused` (to `Running`), `cancel` drives
the state to `Cancelled` only from `Running` or `Paused` — from
`Pending` (and every other state) it is a no-op — and after `cancel`
the task's `result()` is empty and a poll in `Cancelled` returns ready
without storing a result. -/
theorem c2_control_transitions {R : Type}
    (s : AState) (slot : Option R) (inner : InnerPoll R) :
    apiPause s = (if s = .running then .paused else s) ∧
    apiResume s = (if s = .paused then .running else s) ∧
    apiCancel s = (if s = .running ∨ s = .paused then .cancelled else s) ∧
    apiCancel .pending = .pending ∧
    apiResult (apiCancel .running) slot = none ∧
    apiResult (apiCancel .paused) slot = none ∧
    apiPollLoop .cancelled inner = (.cancelled, none, .ready) := by
  refine ⟨?_, ?_, ?_, rfl, rfl, rfl, ?_⟩
  · cases s <;> simp [apiPause]
  · cases s <;> simp [apiResume]
  · cases s <;> simp [apiCancel]
  · cases inner <;> rfl

/-- C3: when the declared size and the advertised `Content-Length`
differ, `download` fails with the integrity (`InvalidData`) error, the
task leaves the world (in particular the local file) unchanged, and a
task that actually attempts the download terminates with that error. -/
theorem c3_size_gate (decodeOk : ContentType → List Nat → Bool)
    (t : SyncTask) (w : World) (resp : HttpResponse)
    (sourceLen contentLen : Nat)
    (hs : t.size = some sourceLen)
    (hw : w.response = some resp)
    (hc : resp.contentLength = some contentLen)
    (hne : sourceLen ≠ contentLen) :
    download t w = .error .invalidData ∧
    (taskRun decodeOk t w).2.1 = w ∧
    (isValid t w = .ok false → (taskRun decodeOk t w).1 = .error .invalidData) := by
  have hdl : download t w = .error .invalidData := by
    unfold download
    simp only [hw, hs, hc]
    simp [hne]
  refine ⟨hdl, ?_, ?_⟩
  · unfold taskRun
    rcases hv : isValid t w with e | valid
    · rfl
    · cases valid
      · simp only [Bool.false_eq_true, if_false, hdl]
        cases isParsedType t.ctype <;> simp
      · rcases hrl : readLocal w with e | bytes <;>
          cases isParsedType t.ctype <;> simp [hrl]
  · intro hv
    unfold taskRun
    rw [hv]
    simp only [Bool.false_eq_true, if_false, hdl]
    cases isParsedType t.ctype <;> simp

/-- C3 witness. -/
theorem c3_size_gate_witness :
    download ⟨some 4, .usual, .clientJar⟩ ⟨none, false, some ⟨some 7, []⟩⟩ =
      .error .invalidData ∧
    (taskRun (fun _ _ => true) ⟨some 4, .usual, .clientJar⟩
        ⟨none, false, some ⟨some 7, []⟩⟩).2.1 =
      ⟨none, false, some ⟨some 7, []⟩⟩ ∧
    (isValid ⟨some 4, .usual, .clientJar⟩ ⟨none, false, some ⟨some 7, []⟩⟩ =
        .ok false →
      (taskRun (fun _ _ => true) ⟨some 4, .usual, .clientJar⟩
          ⟨none, false, some ⟨some 7, []⟩⟩).1 = .error .invalidData) :=
  c3_size_gate (fun _ _ => true) ⟨some 4, .usual, .clientJar⟩
    ⟨none, false, some ⟨some 7, []⟩⟩ ⟨some 7, []⟩ 4 7
    rfl rfl rfl (by decide)

/-- C4: a per-source failure — any task error other than the
distinguished `Cancelled` error — terminates the task with the state
written to `Failed` carrying the error value, observable through
`Handle::state`. -/
theorem c4_failure_surfaces_as_failed {R E : Type}
    (h : SHandle R E) (e : E) :
    sHandleState (applyCompletion h (.error (.other e))) = .failed e ∧
    runCompletion (R := R) (.error (.other e)) = .failed e := by
  exact ⟨rfl, rfl⟩

/-- C5: the freshness check is decided exactly by the validation mode:
`NoneAtAll` always trusts the local copy, `Force` never does, and
`Usual` (when `fs::metadata` does not error) reports fresh iff the local
file exists and either no size is declared or its length equals the
declared size; moreover a fresh source is never downloaded. -/
theorem c5_validation_modes (decodeOk : ContentType → List Nat → Bool)
    (t : SyncTask) (w : World) :
    isValid { t with validation := .noneAtAll } w = .ok true ∧
    isValid { t with validation := .force } w = .ok false ∧
    (w.metaFail = false →
      (isValid { t with validation := .usual } w = .ok true ↔
        ∃ content, w.localFile = some content ∧
          (t.size = none ∨ t.size = some content.length))) ∧
    (isValid t w = .ok true → (taskRun decodeOk t w).2.2 = false) := by
  obtain ⟨sz, tval, tct⟩ := t
  refine ⟨rfl, rfl, ?_, ?_⟩
  · intro hm
    unfold isValid
    rcases hl : w.localFile with _ | content <;> rcases hs : sz with _ | s
    · simp [hm, hl]
    · simp [hm, hl]
    · simp [hm, hl]
    · simp [hm, hl]
      exact eq_comm
  · intro hv
    unfold taskRun
    rw [hv]
    rcases hrl : readLocal w with e | bytes <;>
      cases hp : isParsedType tct <;> simp [hp, hrl]

/-- C5 witness. -/
theorem c5_validation_modes_witness :
    isValid ⟨some 3, .noneAtAll, .asset⟩ ⟨some [9, 9, 9], false, none⟩ =
      .ok true ∧
    isValid ⟨some 3, .force, .asset⟩ ⟨some [9, 9, 9], false, none⟩ =
      .ok false ∧
    ((⟨some [9, 9, 9], false, none⟩ : World).metaFail = false →
      (isValid ⟨some 3, .usual, .asset⟩ ⟨some [9, 9, 9], false, none⟩ =
          .ok true ↔
        ∃ content,
          (⟨some [9, 9, 9], false, none⟩ : World).localFile = some content ∧
            ((⟨some 3, .usual, .asset⟩ : SyncTask).size = none ∨
              (⟨some 3, .usual, .asset⟩ : SyncTask).size =
                some content.length))) ∧
    (isValid ⟨some 3, .usual, .asset⟩ ⟨some [9, 9, 9], false, none⟩ =
        .ok true →
      (taskRun (fun _ _ => true) ⟨some 3, .usual, .asset⟩
          ⟨some [9, 9, 9], false, none⟩).2.2 = false) := by
  have h := c5_validation_modes (fun _ _ => true)
    ⟨some 3, .usual, .asset⟩ ⟨some [9, 9, 9], false, none⟩
  exact h

theorem pushL_eq (p s : List Char) (hp : p ≠ []) (hpl : p.getLast? ≠ some '/')
    (hs : s.head? ≠ some '/') : pushL p s = p ++ '/' :: s := by
  unfold pushL
  rw [if_neg hs, if_pos ⟨hp, hpl⟩]

theorem pushL_nil (s : List Char) (hs : s.head? ≠ some '/') :
    pushL [] s = s := by
  unfold pushL
  rw [if_neg hs]
  simp

theorem last_append_slash_cons (p s : List Char) (h1 : s ≠ []) :
    (p ++ '/' :: s).getLast? = s.getLast? := by
  rw [List.getLast?_append_cons]
  cases s with
  | nil => exact absurd rfl h1
  | cons a t =>
    have : '/' :: a :: t = ['/'] ++ a :: t := rfl
    rw [this, List.getLast?_append_cons]

theorem head?_append_ne_nil (l₁ l₂ : List Char) (h : l₁ ≠ []) :
    (l₁ ++ l₂).head? = l₁.head? := by
  cases l₁ with
  | nil => exact absurd rfl h
  | cons a t => rfl

theorem head?_append_ne_slash (l₁ l₂ : List Char) (h : l₁ ≠ [])
    (h2 : l₁.head? ≠ some '/') : (l₁ ++ l₂).head? ≠ some '/' := by
  rw [head?_append_ne_nil l₁ l₂ h]
  exact h2

theorem foldl_pushL_good (segs : List (List Char)) :
    ∀ p : List Char, p ≠ [] → p.getLast? ≠ some '/' →
      (∀ s ∈ segs, goodComp s) →
    segs.foldl pushL p = p ++ slashPrefixed segs := by
  induction segs with
  | nil => intro p _ _ _; simp [slashPrefixed]
  | cons s rest ih =>
    intro p hp hpl hg
    have hs := hg s (by simp)
    rw [List.foldl_cons, pushL_eq p s hp hpl hs.2.1]
    rw [ih (p ++ '/' :: s) (by simp)
      (by rw [last_append_slash_cons p s hs.1]; exact hs.2.2)
      (fun x hx => hg x (by simp [hx]))]
    simp [slashPrefixed]

theorem slashJoin_cons (rest : List (List Char)) (s : List Char) :
    slashJoin (s :: rest) = s ++ slashPrefixed rest := by
  induction rest generalizing s with
  | nil => simp [slashJoin, slashPrefixed]
  | cons r rs ih =>
    show s ++ '/' :: slashJoin (r :: rs) = _
    rw [ih r]
    simp [slashPrefixed]

theorem splitOnChar_ne_nil (sep : Char) (l : List Char) :
    splitOnChar sep l ≠ [] := by
  induction l with
  | nil => simp [splitOnChar]
  | cons c rest ih =>
    unfold splitOnChar
    by_cases hc : c = sep
    · simp [hc]
    · rw [if_neg hc]
      rcases splitOnChar sep rest with _ | ⟨h, t⟩ <;> simp

theorem slashJoin_cons_char (c : Char) (h : List Char)
    (t : List (List Char)) :
    slashJoin ((c :: h) :: t) = c :: slashJoin (h :: t) := by
  cases t with
  | nil => rfl
  | cons x xs => rfl

theorem map_dotSlash_eq (g : List Char) :
    g.map dotSlash = slashJoin (splitOnChar '.' g) := by
  induction g with
  | nil => rfl
  | cons c rest ih =>
    rcases hsp : splitOnChar '.' rest with _ | ⟨h, t⟩
    · exact absurd hsp (splitOnChar_ne_nil '.' rest)
    · by_cases hc : c = '.'
      · subst hc
        show dotSlash '.' :: rest.map dotSlash = _
        unfold splitOnChar
        rw [if_pos rfl, hsp]
        have : slashJoin ([] :: h :: t) = '/' :: slashJoin (h :: t) := rfl
        rw [this, ih, hsp]
        rfl
      · show dotSlash c :: rest.map dotSlash = _
        unfold splitOnChar
        rw [if_neg hc, hsp, slashJoin_cons_char, ih, hsp]
        unfold dotSlash
        rw [if_neg hc]

theorem slashJoin_good (segs : List (List Char)) (hne : segs ≠ [])
    (hg : ∀ s ∈ segs, goodComp s) :
    slashJoin segs ≠ [] ∧ (slashJoin segs).getLast? ≠ some '/' := by
  induction segs with
  | nil => exact absurd rfl hne
  | cons s rest ih =>
    cases rest with
    | nil => exact ⟨(hg s (by simp)).1, (hg s (by simp)).2.2⟩
    | cons r rs =>
      have hr := ih (by simp) (fun x hx => hg x (by simp [hx]))
      have hj : slashJoin (s :: r :: rs) = s ++ '/' :: slashJoin (r :: rs) :=
        rfl
      refine ⟨by rw [hj]; rcases s with _ | ⟨a, t⟩ <;> simp, ?_⟩
      rw [hj, last_append_slash_cons s _ hr.1]
      exact hr.2

theorem pushL_parsed_chain (group artifact version fname : List Char)
    (hg : ∀ seg ∈ splitOnChar '.' group, goodComp seg)
    (ha : goodComp artifact) (hv : goodComp version)
    (hfh : fname.head? ≠ some '/') :
    pushL (pushL (pushL ((splitOnChar '.' group).foldl pushL []) artifact)
        version) fname =
      group.map dotSlash ++ '/' :: artifact ++ '/' :: version ++
        '/' :: fname := by
  rcases hsp : splitOnChar '.' group with _ | ⟨s0, srest⟩
  · exact absurd hsp (splitOnChar_ne_nil '.' group)
  have hg' : ∀ s ∈ s0 :: srest, goodComp s := by rw [← hsp]; exact hg
  have hs0 := hg' s0 (by simp)
  have hfold : (s0 :: srest).foldl pushL [] = slashJoin (s0 :: srest) := by
    rw [List.foldl_cons, pushL_nil s0 hs0.2.1,
      foldl_pushL_good srest s0 hs0.1 hs0.2.2
        (fun x hx => hg' x (by simp [hx])),
      slashJoin_cons]
  have hbase := slashJoin_good (s0 :: srest) (by simp) hg'
  have hstep1 : pushL (slashJoin (s0 :: srest)) artifact =
      slashJoin (s0 :: srest) ++ '/' :: artifact :=
    pushL_eq _ _ hbase.1 hbase.2 ha.2.1
  have hlast1 : (slashJoin (s0 :: srest) ++ '/' :: artifact).getLast? ≠
      some '/' := by
    rw [last_append_slash_cons _ _ ha.1]
    exact ha.2.2
  have hstep2 : pushL (slashJoin (s0 :: srest) ++ '/' :: artifact) version =
      slashJoin (s0 :: srest) ++ '/' :: artifact ++ '/' :: version := by
    rw [pushL_eq _ _ (by simp) hlast1 hv.2.1]
  have hlast2 : (slashJoin (s0 :: srest) ++ '/' :: artifact ++
      '/' :: version).getLast? ≠ some '/' := by
    rw [last_append_slash_cons _ _ hv.1]
    exact hv.2.2
  have hstep3 : pushL (slashJoin (s0 :: srest) ++ '/' :: artifact ++
      '/' :: version) fname =
      slashJoin (s0 :: srest) ++ '/' :: artifact ++ '/' :: version ++
        '/' :: fname := by
    rw [pushL_eq _ _ (by simp) hlast2 hfh]
  rw [hfold, hstep1, hstep2, hstep3, map_dotSlash_eq, hsp]

/-- C6 counterexample: for the name `a..b:c:2` (empty segment in the
group) `PathBuf::push` skips the empty segment, so `build_library_path`
returns `a/b/c/2/c-2.jar`, not the claimed group-with-dots-as-slashes
path `a//b/c/2/c-2.jar`. -/
theorem c6_library_path_counterexample :
    splitn3Char ':' "a..b:c:2".toList =
      ["a..b".toList, "c".toList, "2".toList] ∧
    buildLibraryPath "a..b:c:2".toList "h".toList none =
      "a/b/c/2/c-2.jar".toList ∧
    claimedLibraryPath "a..b".toList "c".toList "2".toList none =
      "a//b/c/2/c-2.jar".toList ∧
    buildLibraryPath "a..b:c:2".toList "h".toList none ≠
      claimedLibraryPath "a..b".toList "c".toList "2".toList none := by
  refine ⟨by decide, by decide, by decide, by decide⟩

/-- C6 amended: when the name splits (by the first two colons) as
`group:artifact:version` and every dot-segment of the group, the
artifact and the version are nonempty, do not start with `/` and do not
end with `/`, the result is
`<group-with-dots-as-slashes>/<artifact>/<version>/<artifact>-<version>[-<classifier>].jar`
(with degenerate components, `PathBuf::push` collapses empty segments
instead of emitting consecutive slashes); when the parse fails, the
result is `<hash>.jar` for an empty name and `<name>-<hash>.jar`
otherwise. -/
theorem c6_library_path (name hash group artifact version name2 : List Char)
    (native : Option (List Char))
    (hparse : splitn3Char ':' name = [group, artifact, version])
    (hg : ∀ seg ∈ splitOnChar '.' group, goodComp seg)
    (ha : goodComp artifact) (hv : goodComp version)
    (hlen : (splitn3Char ':' name2).length < 3) :
    buildLibraryPath name hash native =
      claimedLibraryPath group artifact version native ∧
    buildLibraryPath name2 hash native =
      (if name2 = [] then hash ++ ".jar".toList
       else name2 ++ '-' :: hash ++ ".jar".toList) := by
  have hfh0 : (artifact ++ '-' :: version).head? ≠ some '/' :=
    head?_append_ne_slash artifact _ ha.1 ha.2.1
  have hne0 : artifact ++ '-' :: version ≠ [] := by simp
  constructor
  · rcases native with _ | n
    · have hred : buildLibraryPath name hash none =
          pushL (pushL (pushL ((splitOnChar '.' group).foldl pushL [])
              artifact) version)
            (artifact ++ '-' :: version ++ ".jar".toList) := by
        unfold buildLibraryPath
        rw [hparse]
      rw [hred, pushL_parsed_chain group artifact version
        (artifact ++ '-' :: version ++ ".jar".toList) hg ha hv
        (head?_append_ne_slash _ _ hne0 hfh0)]
      unfold claimedLibraryPath
      simp
    · have hfh1 : (artifact ++ '-' :: version ++ '-' :: n).head? ≠ some '/' :=
        head?_append_ne_slash _ _ hne0 hfh0
      have hne1 : artifact ++ '-' :: version ++ '-' :: n ≠ [] := by simp
      have hred : buildLibraryPath name hash (some n) =
          pushL (pushL (pushL ((splitOnChar '.' group).foldl pushL [])
              artifact) version)
            (artifact ++ '-' :: version ++ '-' :: n ++ ".jar".toList) := by
        unfold buildLibraryPath
        rw [hparse]
      rw [hred, pushL_parsed_chain group artifact version
        (artifact ++ '-' :: version ++ '-' :: n ++ ".jar".toList) hg ha hv
        (head?_append_ne_slash _ _ hne1 hfh1)]
      unfold claimedLibraryPath
      simp
  · rcases hs : splitn3Char ':' name2 with _ | ⟨a, _ | ⟨b, _ | ⟨c, rest⟩⟩⟩
    · unfold buildLibraryPath
      rw [hs]
    · unfold buildLibraryPath
      rw [hs]
    · unfold buildLibraryPath
      rw [hs]
    · rw [hs] at hlen
      simp only [List.length_cons] at hlen
      omega

/-- C6 witness. -/
theorem c6_library_path_witness :
    buildLibraryPath "com.example:lib:1.0".toList "hash".toList
        (some "linux".toList) =
      claimedLibraryPath "com.example".toList "lib".toList "1.0".toList
        (some "linux".toList) ∧
    buildLibraryPath "invalid_lib".toList "hash".toList
        (some "linux".toList) =
      (if "invalid_lib".toList = ([] : List Char)
       then "hash".toList ++ ".jar".toList
       else "invalid_lib".toList ++ '-' :: "hash".toList ++ ".jar".toList) :=
  c6_library_path "com.example:lib:1.0".toList "hash".toList
    "com.example".toList "lib".toList "1.0".toList "invalid_lib".toList
    (some "linux".toList) (by decide) (by decide) (by decide) (by decide)
    (by decide)

theorem substAux_fd_none (params : List (List Char × List Char))
    (tl : List Char) (out : Option (List Char)) (emit start : Nat)
    (hfd : findDollarBrace (tl.drop start) = none) :
    substAux params tl out emit start = finishSubst tl out emit := by
  rw [substAux.eq_def]
  split
  · rfl
  · rename_i i h1
    rw [hfd] at h1
    cases h1

theorem substAux_fc_none (params : List (List Char × List Char))
    (tl : List Char) (out : Option (List Char)) (emit start i : Nat)
    (hfd : findDollarBrace (tl.drop start) = some i)
    (hfc : findClosingBrace (tl.drop (start + i + 2)) = none) :
    substAux params tl out emit start = finishSubst tl out emit := by
  rw [substAux.eq_def]
  split
  · rfl
  · rename_i i' h1
    rw [hfd] at h1
    cases h1
    split
    · rfl
    · rename_i j h2
      rw [hfc] at h2
      cases h2

theorem substAux_step (params : List (List Char × List Char))
    (tl : List Char) (out : Option (List Char)) (emit start i j : Nat)
    (hfd : findDollarBrace (tl.drop start) = some i)
    (hfc : findClosingBrace (tl.drop (start + i + 2)) = some j) :
    substAux params tl out emit start =
      substAux params tl
        (stepState params tl out emit (start + i) (start + i + 2 + j)).1
        (stepState params tl out emit (start + i) (start + i + 2 + j)).2
        (start + i + 2 + j + 1) := by
  rw [substAux.eq_def]
  split
  · rename_i h1
    rw [hfd] at h1
    cases h1
  · rename_i i' h1
    rw [hfd] at h1
    cases h1
    split
    · rename_i h2
      rw [hfc] at h2
      cases h2
    · rename_i j' h2
      rw [hfc] at h2
      cases h2
      rfl

theorem specSubstAux_fd_none (params : List (List Char × List Char))
    (tl : List Char) (start : Nat)
    (hfd : findDollarBrace (tl.drop start) = none) :
    specSubstAux params tl start = tl.drop start := by
  rw [specSubstAux.eq_def]
  split
  · rfl
  · rename_i i h1
    rw [hfd] at h1
    cases h1

theorem specSubstAux_fc_none (params : List (List Char × List Char))
    (tl : List Char) (start i : Nat)
    (hfd : findDollarBrace (tl.drop start) = some i)
    (hfc : findClosingBrace (tl.drop (start + i + 2)) = none) :
    specSubstAux params tl start = tl.drop start := by
  rw [specSubstAux.eq_def]
  split
  · rfl
  · rename_i i' h1
    rw [hfd] at h1
    cases h1
    split
    · rfl
    · rename_i j h2
      rw [hfc] at h2
      cases h2

theorem specSubstAux_step (params : List (List Char × List Char))
    (tl : List Char) (start i j : Nat)
    (hfd : findDollarBrace (tl.drop start) = some i)
    (hfc : findClosingBrace (tl.drop (start + i + 2)) = some j) :
    specSubstAux params tl start =
      sliceL tl start (start + i) ++
        (match params.lookup
            (sliceL tl (start + i + 2) (start + i + 2 + j)) with
         | some v =>
           if v = sliceL tl (start + i) (start + i + 2 + j + 1) then
             sliceL tl (start + i) (start + i + 2 + j + 1)
           else v
         | none => sliceL tl (start + i) (start + i + 2 + j + 1)) ++
        specSubstAux params tl (start + i + 2 + j + 1) := by
  rw [specSubstAux.eq_def]
  split
  · rename_i h1
    rw [hfd] at h1
    cases h1
  · rename_i i' h1
    rw [hfd] at h1
    cases h1
    split
    · rename_i h2
      rw [hfc] at h2
      cases h2
    · rename_i j' h2
      rw [hfc] at h2
      cases h2
      rfl

theorem take_append_sliceL (tl : List Char) (a b : Nat) (hab : a ≤ b) :
    tl.take a ++ sliceL tl a b = tl.take b := by
  unfold sliceL
  rw [(List.take_add tl a (b - a)).symm]
  congr 1
  omega

theorem sliceL_zero (tl : List Char) (b : Nat) : sliceL tl 0 b = tl.take b := by
  simp [sliceL]

theorem substAux_some_spec (params : List (List Char × List Char))
    (tl : List Char) : ∀ (n start : Nat) (o : List Char),
    tl.length ≤ start + n →
    substAux params tl (some o) start start =
      o ++ specSubstAux params tl start := by
  intro n
  induction n with
  | zero =>
    intro start o hb
    have hdrop : tl.drop start = [] := List.drop_eq_nil_of_le (by omega)
    have hfd : findDollarBrace (tl.drop start) = none := by rw [hdrop]; rfl
    rw [substAux_fd_none params tl (some o) start start hfd,
      specSubstAux_fd_none params tl start hfd]
    rfl
  | succ n ih =>
    intro start o hb
    rcases hfd : findDollarBrace (tl.drop start) with _ | i
    · rw [substAux_fd_none params tl (some o) start start hfd,
        specSubstAux_fd_none params tl start hfd]
      rfl
    · rcases hfc : findClosingBrace (tl.drop (start + i + 2)) with _ | j
      · rw [substAux_fc_none params tl (some o) start start i hfd hfc,
          specSubstAux_fc_none params tl start i hfd hfc]
        rfl
      · rw [substAux_step params tl (some o) start start i j hfd hfc,
          specSubstAux_step params tl start i j hfd hfc]
        rcases hlk : params.lookup
            (sliceL tl (start + i + 2) (start + i + 2 + j)) with _ | v
        · have hns : stepState params tl (some o) start (start + i)
              (start + i + 2 + j) =
              (some (o ++ sliceL tl start (start + i) ++
                sliceL tl (start + i) (start + i + 2 + j + 1)),
               start + i + 2 + j + 1) := by
            simp [stepState, hlk]
          simp only [hns]
          rw [ih (start + i + 2 + j + 1) _ (by omega)]
          simp [hlk, List.append_assoc]
        · by_cases hveq : v = sliceL tl (start + i) (start + i + 2 + j + 1)
          · have hns : stepState params tl (some o) start (start + i)
                (start + i + 2 + j) =
                (some (o ++ sliceL tl start (start + i) ++
                  sliceL tl (start + i) (start + i + 2 + j + 1)),
                 start + i + 2 + j + 1) := by
              simp [stepState, hlk, hveq]
            simp only [hns]
            rw [ih (start + i + 2 + j + 1) _ (by omega)]
            simp [hlk, hveq, List.append_assoc]
          · have hns : stepState params tl (some o) start (start + i)
                (start + i + 2 + j) =
                (some (o ++ sliceL tl start (start + i) ++ v),
                 start + i + 2 + j + 1) := by
              simp [stepState, hlk, hveq]
            simp only [hns]
            rw [ih (start + i + 2 + j + 1) _ (by omega)]
            simp [hlk, hveq, List.append_assoc]

theorem substAux_none_spec (params : List (List Char × List Char))
    (tl : List Char) : ∀ (n start : Nat), tl.length ≤ start + n →
    substAux params tl none 0 start =
      tl.take start ++ specSubstAux params tl start := by
  intro n
  induction n with
  | zero =>
    intro start hb
    have hdrop : tl.drop start = [] := List.drop_eq_nil_of_le (by omega)
    have hfd : findDollarBrace (tl.drop start) = none := by rw [hdrop]; rfl
    rw [substAux_fd_none params tl none 0 start hfd,
      specSubstAux_fd_none params tl start hfd]
    show tl = tl.take start ++ tl.drop start
    rw [List.take_append_drop]
  | succ n ih =>
    intro start hb
    rcases hfd : findDollarBrace (tl.drop start) with _ | i
    · rw [substAux_fd_none params tl none 0 start hfd,
        specSubstAux_fd_none params tl start hfd]
      show tl = tl.take start ++ tl.drop start
      rw [List.take_append_drop]
    · rcases hfc : findClosingBrace (tl.drop (start + i + 2)) with _ | j
      · rw [substAux_fc_none params tl none 0 start i hfd hfc,
          specSubstAux_fc_none params tl start i hfd hfc]
        show tl = tl.take start ++ tl.drop start
        rw [List.take_append_drop]
      · have htake : tl.take start ++ sliceL tl start (start + i) ++
            sliceL tl (start + i) (start + i + 2 + j + 1) =
            tl.take (start + i + 2 + j + 1) := by
          rw [take_append_sliceL tl start (start + i) (by omega),
            take_append_sliceL tl (start + i) (start + i + 2 + j + 1)
              (by omega)]
        rw [substAux_step params tl none 0 start i j hfd hfc,
          specSubstAux_step params tl start i j hfd hfc]
        rcases hlk : params.lookup
            (sliceL tl (start + i + 2) (start + i + 2 + j)) with _ | v
        · have hns : stepState params tl none 0 (start + i)
              (start + i + 2 + j) = (none, 0) := by
            simp [stepState, hlk]
          simp only [hns]
          rw [ih (start + i + 2 + j + 1) (by omega)]
          rw [← List.append_assoc, ← List.append_assoc, htake]
        · by_cases hveq : v = sliceL tl (start + i) (start + i + 2 + j + 1)
          · have hns : stepState params tl none 0 (start + i)
                (start + i + 2 + j) = (none, 0) := by
              simp [stepState, hlk, hveq]
            simp only [hns]
            rw [ih (start + i + 2 + j + 1) (by omega)]
            rw [if_pos hveq, ← List.append_assoc, ← List.append_assoc, htake]
          · have hns : stepState params tl none 0 (start + i)
                (start + i + 2 + j) =
                (some (tl.take (start + i) ++ v),
                 start + i + 2 + j + 1) := by
              simp [stepState, hlk, hveq, sliceL_zero]
            simp only [hns]
            rw [substAux_some_spec params tl tl.length
              (start + i + 2 + j + 1) _ (by omega)]
            rw [if_neg hveq,
              ← take_append_sliceL tl start (start + i) (by omega)]
            simp [List.append_assoc]

/-- C7: `substitute_params` computes exactly the left-to-right scan
that replaces each `${key}` placeholder whose key is in the map with
its value, emits verbatim a placeholder whose key is absent or whose
resolved value equals the placeholder itself, and on an unterminated
placeholder keeps the remainder unchanged; adjacent and repeated
placeholders are all substituted (`specSubstitute` is that scan). -/
theorem c7_substitute_params_spec (tl : List Char)
    (params : List (List Char × List Char)) :
    substituteParams tl params = specSubstitute tl params := by
  unfold substituteParams specSubstitute
  rw [substAux_none_spec params tl tl.length 0 (by omega)]
  rfl

/-- C8 counterexample: `Dirs::locate` is not total on every `Source` —
on an `Archive` whose referenced source is itself an `Archive` it
panics (`panic!("nested archives not supported")`), modelled as
`none`. -/
theorem c8_locate_nested_counterexample :
    locate
      ⟨"root".toList, "assets".toList, "libraries".toList,
        "versions".toList, "runtime".toList⟩
      (DSource.archive
        (DSource.archive (DSource.remote "a".toList DSourceKind.library)
          [] 0) [] 0) = none := by
  rfl

/-- C8 amended: `Dirs::locate` is a pure (hence deterministic) function
and is total on every `Remote` source of every kind; an `Archive`
source whose referenced source is itself an `Archive` panics instead of
returning a path. -/
theorem c8_locate_total_on_remote (d : Dirs) (name : List Char)
    (kind : DSourceKind) (inner : DSource)
    (entryNames entryNames2 : List (List Char)) (index index2 : Nat) :
    locate d (DSource.remote name kind) = some (locateRemote d name kind) ∧
    (locate d (DSource.remote name kind)).isSome = true ∧
    locate d (DSource.archive (DSource.archive inner entryNames index)
      entryNames2 index2) = none := by
  exact ⟨rfl, rfl, rfl⟩

/-- C9 counterexample: the directory placer does not map an archive
entry to `versions/<classifier>/natives/<entry_name>`; it places the
entry next to the located path of the referenced archive (here under
the `libraries` base directory, for every possible classifier a path
under `versions` would differ). -/
theorem c9_natives_path_counterexample :
    locate
      ⟨"root".toList, "assets".toList, "libraries".toList,
        "versions".toList, "runtime".toList⟩
      (DSource.archive
        (DSource.remote "org/lwjgl/lwjgl-natives.jar".toList
          DSourceKind.library)
        ["liblwjgl.so".toList] 0) =
      some "libraries/org/lwjgl/liblwjgl.so".toList ∧
    claimedNativesPath
      ⟨"root".toList, "assets".toList, "libraries".toList,
        "versions".toList, "runtime".toList⟩
      "1.8".toList "liblwjgl.so".toList =
      "versions/1.8/natives/liblwjgl.so".toList ∧
    locate
      ⟨"root".toList, "assets".toList, "libraries".toList,
        "versions".toList, "runtime".toList⟩
      (DSource.archive
        (DSource.remote "org/lwjgl/lwjgl-natives.jar".toList
          DSourceKind.library)
        ["liblwjgl.so".toList] 0) ≠
      some (claimedNativesPath
        ⟨"root".toList, "assets".toList, "libraries".toList,
          "versions".toList, "runtime".toList⟩
        "1.8".toList "liblwjgl.so".toList) := by
  refine ⟨by decide, by decide, by decide⟩

/-- C9 amended: an `Archive` source referencing a `Remote` archive is
placed as a sibling of the referenced archive's located path: the
parent directory of `locate` of the inner source, joined with the
entry's name (or `unnamed<index>` when the index has no name) — not
under `versions/<classifier>/natives/`. -/
theorem c9_archive_entry_sibling (d : Dirs) (nm : List Char)
    (kd : DSourceKind) (entryNames : List (List Char)) (index : Nat)
    (par : List Char)
    (hp : parentL (locateRemote d nm kd) = some par) :
    locate d (DSource.archive (DSource.remote nm kd) entryNames index) =
      some (pushL par (archiveEntryName entryNames index)) := by
  show (parentL (locateRemote d nm kd)).map
      (fun p => pushL p (archiveEntryName entryNames index)) =
    some (pushL par (archiveEntryName entryNames index))
  rw [hp]
  rfl

/-- C9 witness. -/
theorem c9_archive_entry_sibling_witness :
    locate
      ⟨"root".toList, "assets".toList, "libraries".toList,
        "versions".toList, "runtime".toList⟩
      (DSource.archive
        (DSource.remote "org/lwjgl/lwjgl-natives.jar".toList
          DSourceKind.library)
        ["liblwjgl.so".toList] 0) =
      some (pushL "libraries/org/lwjgl".toList
        (archiveEntryName ["liblwjgl.so".toList] 0)) :=
  c9_archive_entry_sibling
    ⟨"root".toList, "assets".toList, "libraries".toList,
      "versions".toList, "runtime".toList⟩
    "org/lwjgl/lwjgl-natives.jar".toList DSourceKind.library
    ["liblwjgl.so".toList] 0 "libraries/org/lwjgl".toList (by decide)

/-- C10 counterexample: a `NoneAtAll` task for a non-parsed content type
(`ClientJar`) whose local path is absent terminates successfully — not
in failure as the claim states — while issuing no network request. -/
theorem c10_noneatall_success_counterexample :
    taskRun (fun _ _ => true) ⟨none, .noneAtAll, .clientJar⟩
        ⟨none, false, none⟩ =
      (.ok (), ⟨none, false, none⟩, false) := by
  rfl

/-- C10 amended: under `NoneAtAll` with the local path absent the task
never issues a network request and never writes; for the parsed content
types (asset index, version info, version manifest, natives) it fails
with the filesystem not-found error from reading the local file, while
for every other content type it succeeds without touching anything. -/
theorem c10_noneatall_behaviour (decodeOk : ContentType → List Nat → Bool)
    (t : SyncTask) (w : World)
    (hval : t.validation = .noneAtAll)
    (habs : w.localFile = none) :
    (taskRun decodeOk t w).2.2 = false ∧
    (taskRun decodeOk t w).2.1 = w ∧
    (isParsedType t.ctype = true →
      (taskRun decodeOk t w).1 = .error .notFound) ∧
    (isParsedType t.ctype = false → (taskRun decodeOk t w).1 = .ok ()) := by
  have hv : isValid t w = .ok true := by unfold isValid; rw [hval]
  have hrl : readLocal w = .error .notFound := by unfold readLocal; rw [habs]
  unfold taskRun
  rw [hv]
  rcases hp : isParsedType t.ctype <;> simp [hp, hrl]

/-- C10 witness. -/
theorem c10_noneatall_behaviour_witness :
    ((taskRun (fun _ _ => true) ⟨none, .noneAtAll, .assetIndex⟩
        ⟨none, false, none⟩).2.2 = false ∧
     (taskRun (fun _ _ => true) ⟨none, .noneAtAll, .assetIndex⟩
        ⟨none, false, none⟩).2.1 = ⟨none, false, none⟩ ∧
     (isParsedType ContentType.assetIndex = true →
       (taskRun (fun _ _ => true) ⟨none, .noneAtAll, .assetIndex⟩
          ⟨none, false, none⟩).1 = .error .notFound) ∧
     (isParsedType ContentType.assetIndex = false →
       (taskRun (fun _ _ => true) ⟨none, .noneAtAll, .assetIndex⟩
          ⟨none, false, none⟩).1 = .ok ())) :=
  c10_noneatall_behaviour (fun _ _ => true)
    ⟨none, .noneAtAll, .assetIndex⟩ ⟨none, false, none⟩ rfl rfl

end Mcl
